import Mathlib

/-!
Verification of the experimental grid-based downsampling filter of this
repository: the hash calculator of GridFilterBase (grid_filter_base.h), the
voxel structure VoxelStructT (voxel_grid.h, two revisions in the sources),
and the three-phase filter protocol driving them.

Embedding conventions:
* float coordinates and float arithmetic are embedded as exact rationals
  (the spec describes the computations with exact floor semantics);
* std::size_t values are naturals; the width 2 ^ 64 appears explicitly where
  a wrap-around could matter;
* Eigen integer coordinate vectors are mathematical integers (only the
  first three components take part in hashing, the fourth multiplier is 0);
* the unordered_map grid is an association list in insertion order
  (iteration order of the real container is unspecified);
* fallible operations return Option.
-/

namespace VoxelGridSpec

/-- Three float components (x, y, z) of a point or of an extrema vector,
embedded as exact rationals. -/
structure Vec3 where
  x : ℚ
  y : ℚ
  z : ℚ
deriving DecidableEq

/-- Three integer grid coordinates: the first three components of an Eigen
Vector4i (the fourth, homogeneous component of min_b_ / divb_mul_ plays no
part in hashing: divb_mul_[3] = 0). -/
structure Vec3i where
  x : ℤ
  y : ℤ
  z : ℤ
deriving DecidableEq

/-- The value of std::numeric_limits of std::size_t max on the 64-bit
targets the library is built for. -/
def max_size : ℕ := 2 ^ 64 - 1

/-- One per-axis candidate cell count of the overflow check:
floor((max_p - min_p) * inverse_leaf_size) + 1, converted from the floating
value to std::size_t.  The conversion (here Int.toNat) is exact for the
non-negative values that arise from genuine extrema (min_p at most max_p)
and a non-negative inverse leaf size. -/
def dcount (maxc minc invc : ℚ) : ℕ :=
  (⌊(maxc - minc) * invc⌋ + 1).toNat

/-- GridFilterBase::checkHashRange (grid_filter_base.h, lines 97-116).
Returns 0 when the candidate total cell count dx*dy*dz would overflow
std::size_t, and the count itself otherwise.  The division tests mirror the
source: `dy > max_size / dx || dx * dy > max_size / dz`.  The product
dx * dy in the second test and dx * dy * dz in the else branch are written
in plain natural arithmetic; theorem checkHashRange_overflow_iff shows the
guards keep every such product at most max_size, so the natural value
coincides with the wrapped size_t value computed by the source. -/
def checkHashRange (min_p max_p inv : Vec3) : ℕ :=
  let dx := dcount max_p.x min_p.x inv.x
  let dy := dcount max_p.y min_p.y inv.y
  let dz := dcount max_p.z min_p.z inv.z
  if max_size / dx < dy ∨ max_size / dz < dx * dy then 0
  else dx * dy * dz

/-- VoxelStructT::checkIfOverflow (voxel_grid.h, lines 391-409): the same
computation as checkHashRange but reporting failure as boost::none instead
of the in-band value 0. -/
def checkIfOverflow (min_p max_p inv : Vec3) : Option ℕ :=
  let dx := dcount max_p.x min_p.x inv.x
  let dy := dcount max_p.y min_p.y inv.y
  let dz := dcount max_p.z min_p.z inv.z
  if max_size / dx < dy ∨ max_size / dz < dx * dy then none
  else some (dx * dy * dz)

theorem one_le_dcount {maxc minc invc : ℚ} (h : minc ≤ maxc) (hi : 0 ≤ invc) :
    1 ≤ dcount maxc minc invc := by
  have h0 : (0 : ℚ) ≤ (maxc - minc) * invc := mul_nonneg (by linarith) hi
  have hf : 0 ≤ ⌊(maxc - minc) * invc⌋ := Int.floor_nonneg.mpr h0
  unfold dcount
  omega

/-- C1: the overflow check computes dx, dy, dz as floor((max-min)*invL)+1
per axis and, for genuine extrema and positive inverse leaf sizes, reports
failure (0 respectively none) exactly when dx*dy*dz exceeds the largest
std::size_t; otherwise it returns exactly dx*dy*dz.  The final conjunct is
the no-wrap guarantee: whenever the first division test admits dy, the
product dx*dy used by the second test already fits std::size_t, so the
division-based test never lets a product wrap. -/
theorem checkHashRange_overflow_iff (min_p max_p inv : Vec3)
    (hx : min_p.x ≤ max_p.x) (hy : min_p.y ≤ max_p.y) (hz : min_p.z ≤ max_p.z)
    (ix : 0 < inv.x) (iy : 0 < inv.y) (iz : 0 < inv.z) :
    (checkHashRange min_p max_p inv = 0 ↔
      max_size < dcount max_p.x min_p.x inv.x * dcount max_p.y min_p.y inv.y *
        dcount max_p.z min_p.z inv.z) ∧
    (dcount max_p.x min_p.x inv.x * dcount max_p.y min_p.y inv.y *
        dcount max_p.z min_p.z inv.z ≤ max_size →
      checkHashRange min_p max_p inv =
        dcount max_p.x min_p.x inv.x * dcount max_p.y min_p.y inv.y *
          dcount max_p.z min_p.z inv.z) ∧
    (checkIfOverflow min_p max_p inv =
      if max_size < dcount max_p.x min_p.x inv.x * dcount max_p.y min_p.y inv.y *
          dcount max_p.z min_p.z inv.z then none
      else some (dcount max_p.x min_p.x inv.x * dcount max_p.y min_p.y inv.y *
          dcount max_p.z min_p.z inv.z)) ∧
    (dcount max_p.y min_p.y inv.y ≤ max_size / dcount max_p.x min_p.x inv.x →
      dcount max_p.x min_p.x inv.x * dcount max_p.y min_p.y inv.y ≤ max_size) := by
  set dx := dcount max_p.x min_p.x inv.x with hdx
  set dy := dcount max_p.y min_p.y inv.y with hdy
  set dz := dcount max_p.z min_p.z inv.z with hdz
  have hdx1 : 1 ≤ dx := one_le_dcount hx ix.le
  have hdy1 : 1 ≤ dy := one_le_dcount hy iy.le
  have hdz1 : 1 ≤ dz := one_le_dcount hz iz.le
  have hxpos : 0 < dx := hdx1
  have hzpos : 0 < dz := hdz1
  have htest1 : max_size / dx < dy ↔ max_size < dx * dy := by
    rw [Nat.div_lt_iff_lt_mul hxpos, Nat.mul_comm]
  have htest2 : max_size / dz < dx * dy ↔ max_size < dx * dy * dz := by
    rw [Nat.div_lt_iff_lt_mul hzpos]
  have hcond : (max_size / dx < dy ∨ max_size / dz < dx * dy) ↔
      max_size < dx * dy * dz := by
    constructor
    · rintro (h | h)
      · have h1 : max_size < dx * dy := htest1.mp h
        calc max_size < dx * dy := h1
          _ ≤ dx * dy * dz := Nat.le_mul_of_pos_right _ hzpos
      · exact htest2.mp h
    · intro h
      exact Or.inr (htest2.mpr h)
  refine ⟨?_, ?_, ?_, ?_⟩
  · unfold checkHashRange
    rw [← hdx, ← hdy, ← hdz]
    constructor
    · intro h0
      by_contra hlt
      push_neg at hlt
      rw [if_neg (by rw [hcond]; omega)] at h0
      have : 1 ≤ dx * dy * dz :=
        Nat.one_le_iff_ne_zero.mpr (by positivity)
      omega
    · intro h
      rw [if_pos (hcond.mpr h)]
  · intro h
    unfold checkHashRange
    rw [← hdx, ← hdy, ← hdz, if_neg (by rw [hcond]; omega)]
  · unfold checkIfOverflow
    rw [← hdx, ← hdy, ← hdz]
    by_cases h : max_size < dx * dy * dz
    · rw [if_pos (hcond.mpr h), if_pos h]
    · rw [if_neg (by rw [hcond]; exact h), if_neg h]
  · intro h
    have := (Nat.le_div_iff_mul_le hxpos).mp h
    calc dx * dy = dy * dx := Nat.mul_comm _ _
      _ ≤ max_size := this

/-- Witness for C1 at concrete input: extrema (0,0,0) and (1,2,3) with unit
inverse leaf size give per-axis counts 2, 3, 4 and a returned range of 24. -/
theorem checkHashRange_overflow_iff_witness :
    checkHashRange ⟨0, 0, 0⟩ ⟨1, 2, 3⟩ ⟨1, 1, 1⟩ = 24 := by
  have h := (checkHashRange_overflow_iff ⟨0, 0, 0⟩ ⟨1, 2, 3⟩ ⟨1, 1, 1⟩
    (by norm_num) (by norm_num) (by norm_num)
    (by norm_num) (by norm_num) (by norm_num)).2.1
  have e1 : dcount (1 : ℚ) 0 1 = 2 := by norm_num [dcount]; rfl
  have e2 : dcount (2 : ℚ) 0 1 = 3 := by norm_num [dcount]; rfl
  have e3 : dcount (3 : ℚ) 0 1 = 4 := by norm_num [dcount]; rfl
  simp only [e1, e2, e3] at h
  exact h (by norm_num [max_size])

/-- The integer grid bin of a point: floor(coordinate * inverse_leaf_size)
per axis, as computed by getGridCoordinates and by the min_b_ / max_b_
assignments of setUp. -/
def gridCoordinates (inv : Vec3) (p : Vec3) : Vec3i :=
  ⟨⌊p.x * inv.x⌋, ⌊p.y * inv.y⌋, ⌊p.z * inv.z⌋⟩

/-- The bounding box and the strides computed by VoxelStructT::setUp
(voxel_grid.h lines 347-351): min_b_ and max_b_ are the bins of the extrema,
div_b_ = max_b_ - min_b_ + 1 per axis, and divb_mul_ = (1, div_b_[0],
div_b_[0] * div_b_[1], 0). -/
structure GridParams where
  inv : Vec3
  min_b : Vec3i
  max_b : Vec3i
  div_b : Vec3i
  divb_mul : Vec3i
deriving DecidableEq

/-- Build the grid parameters from the inverse leaf size and the cloud
extrema, exactly as setUp does. -/
def setUpParams (inv : Vec3) (min_p max_p : Vec3) : GridParams :=
  let minb := gridCoordinates inv min_p
  let maxb := gridCoordinates inv max_p
  let divb : Vec3i :=
    ⟨maxb.x - minb.x + 1, maxb.y - minb.y + 1, maxb.z - minb.z + 1⟩
  ⟨inv, minb, maxb, divb, ⟨1, divb.x, divb.x * divb.y⟩⟩

/-- VoxelStructT::hashPoint (voxel_grid.h lines 411-418), identical to
GridFilterBase::hashPoint (grid_filter_base.h lines 85-95): per axis
ijk = floor(coordinate * inverse_leaf_size) - min_b, linearized with the
divb_mul strides.  The source computes each ijk and the sum in std::size_t;
for the points the filter hashes (finite points lying between the extrema)
every intermediate value is non-negative, so the embedding evaluates the
whole expression over ℤ and reduces the result to the 64-bit range. -/
def hashPoint (gp : GridParams) (p : Vec3) : ℕ :=
  ((⌊p.x * gp.inv.x⌋ - gp.min_b.x) * gp.divb_mul.x +
      (⌊p.y * gp.inv.y⌋ - gp.min_b.y) * gp.divb_mul.y +
      (⌊p.z * gp.inv.z⌋ - gp.min_b.z) * gp.divb_mul.z).toNat % 2 ^ 64

/-- The number of cells addressed by the leaf layout: the product of the
per-axis division counts div_b_ (the new_layout_size of setUp). -/
def totalCells (gp : GridParams) : ℕ :=
  (gp.div_b.x * gp.div_b.y * gp.div_b.z).toNat

/-- C3 counterexample: extrema 3/4 and 3/2 on the x axis with unit leaf
size.  The overflow check counts dx = floor(3/2 - 3/4) + 1 = 1 cell (and
dy = dz = 1), so it passes and reports a total cell count of 1; yet the
admitted point (3/2, 0, 0), which lies between the extrema, hashes to
1, which is not below dx * dy * dz = 1.  (The division counts div_b_ give
the correct bound: min_b_ = 0, max_b_ = 1, so there are 2 cells on x.) -/
theorem hashPoint_range_counterexample :
    checkIfOverflow ⟨3 / 4, 0, 0⟩ ⟨3 / 2, 0, 0⟩ ⟨1, 1, 1⟩ = some 1 ∧
      hashPoint (setUpParams ⟨1, 1, 1⟩ ⟨3 / 4, 0, 0⟩ ⟨3 / 2, 0, 0⟩) ⟨3 / 2, 0, 0⟩ = 1 ∧
      ¬ hashPoint (setUpParams ⟨1, 1, 1⟩ ⟨3 / 4, 0, 0⟩ ⟨3 / 2, 0, 0⟩) ⟨3 / 2, 0, 0⟩ < 1 := by
  refine ⟨?_, ?_, ?_⟩
  · norm_num [checkIfOverflow, dcount, max_size]
  · norm_num [hashPoint, setUpParams, gridCoordinates]
  · norm_num [hashPoint, setUpParams, gridCoordinates]

/-- C3 (amended): for every point between the extrema used by setUp and
every positive inverse leaf size, hashPoint stays below the product of the
per-axis division counts div_b_ = max_b_ - min_b_ + 1 (the size of the leaf
layout).  This product can exceed the dx, dy, dz product of the overflow
check, which is therefore not an upper bound for the hash (see
hashPoint_range_counterexample). -/
theorem hashPoint_lt_totalCells (inv min_p max_p p : Vec3)
    (ix : 0 < inv.x) (iy : 0 < inv.y) (iz : 0 < inv.z)
    (hx1 : min_p.x ≤ p.x) (hx2 : p.x ≤ max_p.x)
    (hy1 : min_p.y ≤ p.y) (hy2 : p.y ≤ max_p.y)
    (hz1 : min_p.z ≤ p.z) (hz2 : p.z ≤ max_p.z) :
    hashPoint (setUpParams inv min_p max_p) p <
      totalCells (setUpParams inv min_p max_p) := by
  have bx1 : ⌊min_p.x * inv.x⌋ ≤ ⌊p.x * inv.x⌋ :=
    Int.floor_le_floor (mul_le_mul_of_nonneg_right hx1 ix.le)
  have bx2 : ⌊p.x * inv.x⌋ ≤ ⌊max_p.x * inv.x⌋ :=
    Int.floor_le_floor (mul_le_mul_of_nonneg_right hx2 ix.le)
  have by1 : ⌊min_p.y * inv.y⌋ ≤ ⌊p.y * inv.y⌋ :=
    Int.floor_le_floor (mul_le_mul_of_nonneg_right hy1 iy.le)
  have by2 : ⌊p.y * inv.y⌋ ≤ ⌊max_p.y * inv.y⌋ :=
    Int.floor_le_floor (mul_le_mul_of_nonneg_right hy2 iy.le)
  have bz1 : ⌊min_p.z * inv.z⌋ ≤ ⌊p.z * inv.z⌋ :=
    Int.floor_le_floor (mul_le_mul_of_nonneg_right hz1 iz.le)
  have bz2 : ⌊p.z * inv.z⌋ ≤ ⌊max_p.z * inv.z⌋ :=
    Int.floor_le_floor (mul_le_mul_of_nonneg_right hz2 iz.le)
  unfold hashPoint totalCells setUpParams gridCoordinates
  simp only
  set i := ⌊p.x * inv.x⌋ - ⌊min_p.x * inv.x⌋ with hi
  set j := ⌊p.y * inv.y⌋ - ⌊min_p.y * inv.y⌋ with hj
  set k := ⌊p.z * inv.z⌋ - ⌊min_p.z * inv.z⌋ with hk
  set dbx := ⌊max_p.x * inv.x⌋ - ⌊min_p.x * inv.x⌋ + 1 with hdbx
  set dby := ⌊max_p.y * inv.y⌋ - ⌊min_p.y * inv.y⌋ + 1 with hdby
  set dbz := ⌊max_p.z * inv.z⌋ - ⌊min_p.z * inv.z⌋ + 1 with hdbz
  have hi1 : 0 ≤ i := by omega
  have hi2 : i ≤ dbx - 1 := by omega
  have hj1 : 0 ≤ j := by omega
  have hj2 : j ≤ dby - 1 := by omega
  have hk1 : 0 ≤ k := by omega
  have hk2 : k ≤ dbz - 1 := by omega
  have hdbx0 : (0 : ℤ) ≤ dbx := by omega
  have hdbxy0 : (0 : ℤ) ≤ dbx * dby := mul_nonneg hdbx0 (by omega)
  have h1 : j * dbx ≤ (dby - 1) * dbx := mul_le_mul_of_nonneg_right hj2 hdbx0
  have h2 : k * (dbx * dby) ≤ (dbz - 1) * (dbx * dby) :=
    mul_le_mul_of_nonneg_right hk2 hdbxy0
  have hsum : i * 1 + j * dbx + k * (dbx * dby) ≤ dbx * dby * dbz - 1 := by
    have hr : (dbx - 1) + (dby - 1) * dbx + (dbz - 1) * (dbx * dby) =
        dbx * dby * dbz - 1 := by ring
    nlinarith [h1, h2]
  have hlt : i * 1 + j * dbx + k * (dbx * dby) < dbx * dby * dbz := by omega
  have hnn : 0 ≤ i * 1 + j * dbx + k * (dbx * dby) := by
    have := mul_nonneg hj1 hdbx0
    have := mul_nonneg hk1 hdbxy0
    omega
  have htn : (i * 1 + j * dbx + k * (dbx * dby)).toNat <
      (dbx * dby * dbz).toNat := by omega
  exact Nat.lt_of_le_of_lt (Nat.mod_le _ _) htn

/-- Witness for the amended C3: extrema (0,0,0) and (1,1,1) with unit leaf
size give 2 divisions per axis, and the in-range point (3/2, 1/2, 1) hashes
below the 8 layout cells. -/
theorem hashPoint_lt_totalCells_witness :
    hashPoint (setUpParams ⟨1, 1, 1⟩ ⟨0, 0, 0⟩ ⟨3 / 2, 3 / 2, 3 / 2⟩) ⟨3 / 2, 1 / 2, 1⟩ <
      totalCells (setUpParams ⟨1, 1, 1⟩ ⟨0, 0, 0⟩ ⟨3 / 2, 3 / 2, 3 / 2⟩) :=
  hashPoint_lt_totalCells ⟨1, 1, 1⟩ ⟨0, 0, 0⟩ ⟨3 / 2, 3 / 2, 3 / 2⟩ ⟨3 / 2, 1 / 2, 1⟩
    (by norm_num) (by norm_num) (by norm_num) (by norm_num) (by norm_num)
    (by norm_num) (by norm_num) (by norm_num) (by norm_num)

/-- A point: the x, y, z geometry plus the values of every scalar field of
the point type (in field order), embedded as exact rationals.  All embedded
points are finite. -/
structure PointT where
  x : ℚ
  y : ℚ
  z : ℚ
  fields : List ℚ
deriving DecidableEq

/-- The geometry of a point. -/
def PointT.vec3 (p : PointT) : Vec3 :=
  ⟨p.x, p.y, p.z⟩

/-- The configuration VoxelStructT reads from GridFilterBase: the inverse
leaf size, min_points_per_voxel_, downsample_all_data_, save_leaf_layout_,
and the field-range pre-filter (a field index standing for the pair
filter_field_name_ / filter_field_idx_, none when no name is configured,
together with the limits and the negative flag). -/
structure FilterCfg where
  inv : Vec3
  min_points_per_voxel : ℕ
  downsample_all_data : Bool
  save_leaf_layout : Bool
  filter_field : Option ℕ
  filter_limit_min : ℚ
  filter_limit_max : ℚ
  filter_limits_negative : Bool
deriving DecidableEq

/-- Read the configured scalar field from a point (the memcpy at the field
offset in addPointToGrid). -/
def fieldValue (p : PointT) (i : ℕ) : ℚ :=
  p.fields.getD i 0

/-- Voxel (voxel_grid.h lines 26-32): the per-cell aggregation state.  The
centroid_* components embed the CentroidPoint member; modelled from the
spec: CentroidPoint (pcl/common/centroid.h, outside these sources) keeps a
running sum of every scalar field together with its own counter and divides
each sum by the counter on get().  coord_* embed coord_centroid, the raw
xyz running sum of geometry-only mode, and num_pt is the occupancy
counter. -/
structure Voxel where
  centroid_n : ℕ
  centroid_x : ℚ
  centroid_y : ℚ
  centroid_z : ℚ
  centroid_fields : List ℚ
  coord_x : ℚ
  coord_y : ℚ
  coord_z : ℚ
  num_pt : ℕ
deriving DecidableEq

/-- The value-initialized voxel that an operator[] access creates when a
point first lands in a cell. -/
def Voxel.init : Voxel :=
  ⟨0, 0, 0, 0, [], 0, 0, 0, 0⟩

/-- CentroidPoint::add.  Modelled from the spec: every scalar field of the
point is folded into the running per-field sum and the internal counter is
incremented (the first add seeds the sums). -/
def centroidAdd (v : Voxel) (p : PointT) : Voxel :=
  { v with
    centroid_n := v.centroid_n + 1
    centroid_x := v.centroid_x + p.x
    centroid_y := v.centroid_y + p.y
    centroid_z := v.centroid_z + p.z
    centroid_fields :=
      if v.centroid_n = 0 then p.fields
      else List.zipWith (· + ·) v.centroid_fields p.fields }

/-- CentroidPoint::get.  Modelled from the spec: every accumulated field
sum, geometry included, is divided by the internal counter. -/
def centroidGet (v : Voxel) : PointT :=
  ⟨v.centroid_x / (v.centroid_n : ℚ), v.centroid_y / (v.centroid_n : ℚ),
    v.centroid_z / (v.centroid_n : ℚ),
    v.centroid_fields.map (· / (v.centroid_n : ℚ))⟩

/-- The per-point voxel update of addPointToGrid once the point is admitted
(voxel_grid.h lines 445-453): geometry-only mode adds the xyz vector to
coord_centroid, full-field mode adds the whole point to the CentroidPoint;
num_pt is incremented in both modes. -/
def voxelAdd (downsample_all_data : Bool) (p : PointT) (v : Voxel) : Voxel :=
  let v1 :=
    if downsample_all_data then centroidAdd v p
    else
      { v with
        coord_x := v.coord_x + p.x
        coord_y := v.coord_y + p.y
        coord_z := v.coord_z + p.z }
  { v1 with num_pt := v1.num_pt + 1 }

/-- The grid: an unordered_map from hash key to voxel, embedded as an
association list in insertion order (the iteration order of the real
container is unspecified). -/
abbrev Grid := List (ℕ × Voxel)

/-- A grid_[h] access: update the voxel stored under key h, creating a
value-initialized one on first access, as unordered_map::operator[]
does. -/
def gridUpdate (g : Grid) (h : ℕ) (f : Voxel → Voxel) : Grid :=
  match g with
  | [] => [(h, f Voxel.init)]
  | (k, v) :: rest =>
    if k = h then (k, f v) :: rest else (k, v) :: gridUpdate rest h f

/-- The pre-filter test at the head of addPointToGrid (voxel_grid.h lines
423-443).  Returns true when the point is admitted: with the negative flag
the source skips values strictly inside (filter_limit_min,
filter_limit_max); in the normal sense it skips values outside the closed
interval. -/
def pointPassesFilter (cfg : FilterCfg) (p : PointT) : Bool :=
  match cfg.filter_field with
  | none => true
  | some i =>
    let v := fieldValue p i
    if cfg.filter_limits_negative then
      if cfg.filter_limit_min < v ∧ v < cfg.filter_limit_max then false else true
    else
      if cfg.filter_limit_max < v ∨ v < cfg.filter_limit_min then false else true

/-- VoxelStructT::addPointToGrid (voxel_grid.h lines 420-454): evaluate the
pre-filter first and return with no state change when it rejects the point;
otherwise hash the point and fold it into its voxel. -/
def addPointToGrid (cfg : FilterCfg) (gp : GridParams) (g : Grid) (p : PointT) : Grid :=
  if pointPassesFilter cfg p then
    gridUpdate g (hashPoint gp p.vec3) (voxelAdd cfg.downsample_all_data p)
  else g

/-- The representative point computed by filterGrid for a surviving cell
(voxel_grid.h lines 468-477): geometry-only mode divides the xyz running
sum by num_pt and leaves the remaining fields at their defaults; full-field
mode asks the CentroidPoint for the per-field average. -/
def emitCentroid (cfg : FilterCfg) (v : Voxel) : PointT :=
  if cfg.downsample_all_data then centroidGet v
  else
    ⟨v.coord_x / (v.num_pt : ℚ), v.coord_y / (v.num_pt : ℚ),
      v.coord_z / (v.num_pt : ℚ), []⟩

/-- The emission phase: VoxelStructT::filterGrid (voxel_grid.h lines
456-481) applied to every occupied cell in iteration order, threading the
leaf layout and the num_voxels_ counter.  A cell is emitted exactly when
its occupancy reaches min_points_per_voxel_; with save_leaf_layout_ the
cell's layout slot (indexed by its hash key) receives the running output
index num_voxels_++ before the centroid is produced. -/
def filterGridPass (cfg : FilterCfg) :
    Grid → List ℤ → ℕ → List PointT × List ℤ × ℕ
  | [], layout, n => ([], layout, n)
  | (k, v) :: rest, layout, n =>
    if cfg.min_points_per_voxel ≤ v.num_pt then
      let layout1 := if cfg.save_leaf_layout then layout.set k (n : ℤ) else layout
      let n1 := if cfg.save_leaf_layout then n + 1 else n
      let r := filterGridPass cfg rest layout1 n1
      (emitCentroid cfg v :: r.1, r.2)
    else filterGridPass cfg rest layout n

/-- Modelled from the spec: pcl::getMinMax3D (pcl/common/common.h, outside
these sources) returns the componentwise minimum and maximum of the point
coordinates.  The base value for an empty cloud is never consulted: the
orchestrator returns before setUp on an empty input. -/
def cloudMinMax : List PointT → Vec3 × Vec3
  | [] => (⟨0, 0, 0⟩, ⟨0, 0, 0⟩)
  | [p] => (p.vec3, p.vec3)
  | p :: rest =>
    let r := cloudMinMax rest
    (⟨min p.x r.1.x, min p.y r.1.y, min p.z r.1.z⟩,
      ⟨max p.x r.2.x, max p.y r.2.y, max p.z r.2.z⟩)

/-- The leaf-layout reset of setUp (voxel_grid.h lines 365-386): std::fill
writes -1 over the first min(new_layout_size, old size) entries and the
resize to new_layout_size pads with -1. -/
def resizeTo (l : List ℤ) (n : ℕ) : List ℤ :=
  l.take n ++ List.replicate (n - l.length) (-1)

/-- The leaf-layout reset of setUp, continued: the fill composed with the
resize. -/
def resetLayout (old : List ℤ) (n : ℕ) : List ℤ :=
  resizeTo (List.replicate (min n old.length) (-1 : ℤ) ++ old.drop (min n old.length)) n

/-- The fill-then-resize reset is a fully sentinel-initialized layout of the
new size. -/
theorem resetLayout_eq_replicate (old : List ℤ) (n : ℕ) :
    resetLayout old n = List.replicate n (-1) := by
  unfold resetLayout resizeTo
  rcases Nat.le_total n old.length with h | h
  · rw [Nat.min_eq_left h]
    have hlen : (List.replicate n (-1 : ℤ) ++ old.drop n).length = old.length := by
      simp
      omega
    rw [hlen, Nat.sub_eq_zero_of_le h, List.replicate_zero, List.append_nil,
      List.take_append_of_le_length (by simp), List.take_replicate, Nat.min_self]
  · rw [Nat.min_eq_right h, List.drop_length, List.append_nil, List.length_replicate,
      List.take_replicate, Nat.min_eq_right h, ← List.replicate_add]
    congr 1
    omega

/-- VoxelStructT::setUp (voxel_grid.h lines 314-389): compute the extrema
(restricted to points passing the pre-filter when a field is configured),
derive the bounding box and the strides, run the overflow check, and on
success prepare the leaf layout.  Returns none exactly when checkIfOverflow
reports overflow; there the source emits the PCL_WARN diagnostic and
reports failure to the orchestrator.  The grid reservation (min of the
returned hash range and the cloud size) has no observable effect and is
not represented. -/
def setUp (cfg : FilterCfg) (input : List PointT) (oldLayout : List ℤ) :
    Option (GridParams × List ℤ) :=
  let pts :=
    match cfg.filter_field with
    | none => input
    | some _ => input.filter (pointPassesFilter cfg)
  let mm := cloudMinMax pts
  let gp := setUpParams cfg.inv mm.1 mm.2
  match checkIfOverflow mm.1 mm.2 cfg.inv with
  | none => none
  | some _ =>
    some (gp,
      if cfg.save_leaf_layout then resetLayout oldLayout (totalCells gp)
      else oldLayout)

/-- Modelled from the spec: the three-phase protocol of
TransformFilter::applyFilter (transform_filter.h, not among these sources)
specialized to VoxelStructT.  An empty input ends the call before the
phases; a failed setUp ends the call with the input cloud as the output, as
pinned by the repository test TEST(StructMethods, GridFilter), which checks
output.size() == input size right after a failed setUp; otherwise every
point is binned (all embedded points are finite, so the finiteness skip
never fires) and the occupied cells are emitted in grid order.  The
previous leaf layout of a fresh filter object is empty. -/
def applyFilter (cfg : FilterCfg) (input : List PointT) : List PointT :=
  if input.isEmpty then []
  else
    match setUp cfg input [] with
    | none => input
    | some (gp, layout0) =>
      (filterGridPass cfg (input.foldl (addPointToGrid cfg gp) []) layout0 0).1

/-- C6: when a filter field is configured, a point failing the range test -
value outside the closed interval [filter_limit_min, filter_limit_max]
normally, or strictly inside the open interval with the negative flag - is
skipped by addPointToGrid before hashing, so the grid (every cell's running
sums, occupancy count and the set of occupied cells) is unchanged. -/
theorem addPointToGrid_skips_filtered (cfg : FilterCfg) (gp : GridParams)
    (g : Grid) (p : PointT) (i : ℕ) (hf : cfg.filter_field = some i)
    (hfail :
      if cfg.filter_limits_negative then
        cfg.filter_limit_min < fieldValue p i ∧ fieldValue p i < cfg.filter_limit_max
      else
        fieldValue p i < cfg.filter_limit_min ∨ cfg.filter_limit_max < fieldValue p i) :
    addPointToGrid cfg gp g p = g := by
  have hpass : pointPassesFilter cfg p = false := by
    unfold pointPassesFilter
    rw [hf]
    cases h : cfg.filter_limits_negative
    · rw [h] at hfail
      simp only [Bool.false_eq_true, if_false] at hfail ⊢
      rcases hfail with h1 | h1 <;> simp [h1]
    · rw [h] at hfail
      simp only [if_true] at hfail ⊢
      simp [hfail.1, hfail.2]
  unfold addPointToGrid
  rw [hpass]
  simp

/-- Witness for C6: a z-range pre-filter over [0, 1] rejects the point with
z = 2 (stored as field 2), leaving the grid untouched. -/
theorem addPointToGrid_skips_filtered_witness :
    addPointToGrid ⟨⟨1, 1, 1⟩, 0, true, false, some 2, 0, 1, false⟩
      (setUpParams ⟨1, 1, 1⟩ ⟨0, 0, 0⟩ ⟨0, 0, 0⟩) [] ⟨0, 0, 2, [0, 0, 2]⟩ = [] :=
  addPointToGrid_skips_filtered _ _ [] ⟨0, 0, 2, [0, 0, 2]⟩ 2 rfl
    (by norm_num [fieldValue])

/-- The emission pass produces exactly one output point per grid cell whose
occupancy reaches the minimum, regardless of the layout state and of the
running counter. -/
theorem filterGridPass_length (cfg : FilterCfg) (g : Grid) (layout : List ℤ)
    (n : ℕ) :
    (filterGridPass cfg g layout n).1.length =
      (g.filter fun c => cfg.min_points_per_voxel ≤ c.2.num_pt).length := by
  induction g generalizing layout n with
  | nil => simp [filterGridPass]
  | cons c rest ih =>
    obtain ⟨k, v⟩ := c
    by_cases h : cfg.min_points_per_voxel ≤ v.num_pt
    · simp [filterGridPass, h, ih]
    · simp [filterGridPass, h, ih]

/-- C5: when setUp succeeds, the number of points in the output cloud
equals the number of occupied cells (entries of the grid built by the
binning phase) whose occupancy count reaches min_points_per_voxel_; a cell
below the threshold produces no output point and no error. -/
theorem applyFilter_output_count (cfg : FilterCfg) (input : List PointT)
    (gp : GridParams) (layout0 : List ℤ) (hne : input ≠ [])
    (hs : setUp cfg input [] = some (gp, layout0)) :
    (applyFilter cfg input).length =
      ((input.foldl (addPointToGrid cfg gp) []).filter
        fun c => cfg.min_points_per_voxel ≤ c.2.num_pt).length := by
  unfold applyFilter
  rw [if_neg (by simpa using hne), hs]
  exact filterGridPass_length cfg _ layout0 0

/-- Witness for C5: two points in the same unit cell with a threshold of
two yield one occupied qualifying cell and exactly one output point. -/
theorem applyFilter_output_count_witness :
    (applyFilter ⟨⟨1, 1, 1⟩, 2, false, false, none, 0, 0, false⟩
      [⟨0, 0, 0, []⟩, ⟨1 / 4, 0, 0, []⟩]).length = 1 := by
  have h := applyFilter_output_count ⟨⟨1, 1, 1⟩, 2, false, false, none, 0, 0, false⟩
    [⟨0, 0, 0, []⟩, ⟨1 / 4, 0, 0, []⟩] (setUpParams ⟨1, 1, 1⟩ ⟨0, 0, 0⟩ ⟨1 / 4, 0, 0⟩) []
    (by simp)
    (by norm_num [setUp, cloudMinMax, checkIfOverflow, dcount, max_size, PointT.vec3,
      min_def, max_def])
  rw [h]
  norm_num [addPointToGrid, pointPassesFilter, hashPoint, setUpParams, gridCoordinates,
    PointT.vec3, gridUpdate, voxelAdd, Voxel.init, List.foldl, List.filter]

/-- C2 counterexample: a cloud spread 2^40 units along every axis with unit
leaf size makes the candidate cell count (2^40 + 1)^3 overflow std::size_t,
so setUp fails; the call then completes with the input cloud as the output
(the repository test for a failed setUp expects output.size() == input
size), not with the empty output the claim states. -/
theorem applyFilter_overflow_counterexample :
    setUp ⟨⟨1, 1, 1⟩, 0, true, false, none, 0, 0, false⟩
      [⟨0, 0, 0, []⟩, ⟨2 ^ 40, 2 ^ 40, 2 ^ 40, []⟩] [] = none ∧
    applyFilter ⟨⟨1, 1, 1⟩, 0, true, false, none, 0, 0, false⟩
      [⟨0, 0, 0, []⟩, ⟨2 ^ 40, 2 ^ 40, 2 ^ 40, []⟩] =
      [⟨0, 0, 0, []⟩, ⟨2 ^ 40, 2 ^ 40, 2 ^ 40, []⟩] ∧
    ([⟨0, 0, 0, []⟩, ⟨2 ^ 40, 2 ^ 40, 2 ^ 40, []⟩] : List PointT) ≠ [] := by
  refine ⟨?_, ?_, by simp⟩
  · norm_num [setUp, cloudMinMax, checkIfOverflow, dcount, max_size, PointT.vec3,
      min_def, max_def]
  · norm_num [applyFilter, setUp, cloudMinMax, checkIfOverflow, dcount, max_size,
      PointT.vec3, min_def, max_def]

/-- C2 (amended): whenever setUp reports overflow, the filter call
completes without raising - the source emits the PCL_WARN diagnostic,
builds no grid (so no wrapped or aliased hash key is ever formed), and the
output is the input cloud, not an empty cloud. -/
theorem applyFilter_overflow_returns_input (cfg : FilterCfg)
    (input : List PointT) (hne : input ≠ [])
    (hs : setUp cfg input [] = none) :
    applyFilter cfg input = input := by
  unfold applyFilter
  rw [if_neg (by simpa using hne), hs]

/-- Witness for the amended C2 at the overflowing cloud of the
counterexample scenario shifted by one unit. -/
theorem applyFilter_overflow_returns_input_witness :
    applyFilter ⟨⟨1, 1, 1⟩, 0, true, false, none, 0, 0, false⟩
      [⟨1, 1, 1, []⟩, ⟨2 ^ 40, 2 ^ 40, 2 ^ 40, []⟩] =
      [⟨1, 1, 1, []⟩, ⟨2 ^ 40, 2 ^ 40, 2 ^ 40, []⟩] :=
  applyFilter_overflow_returns_input _ _ (by simp)
    (by norm_num [setUp, cloudMinMax, checkIfOverflow, dcount, max_size, PointT.vec3,
      min_def, max_def])

/-- The voxel obtained by adding a sequence of points to a fresh cell, in
the configured mode. -/
def buildVoxel (downsample_all_data : Bool) (ps : List PointT) : Voxel :=
  ps.foldl (fun v p => voxelAdd downsample_all_data p v) Voxel.init

theorem voxelAdd_num_pt (b : Bool) (p : PointT) (v : Voxel) :
    (voxelAdd b p v).num_pt = v.num_pt + 1 := by
  cases b <;> simp [voxelAdd, centroidAdd]

theorem foldl_voxelAdd_num_pt (b : Bool) (ps : List PointT) (v : Voxel) :
    (ps.foldl (fun v p => voxelAdd b p v) v).num_pt = v.num_pt + ps.length := by
  induction ps generalizing v with
  | nil => simp
  | cons p rest ih =>
    simp only [List.foldl_cons, ih, voxelAdd_num_pt, List.length_cons]
    omega

theorem voxelAdd_coord (p : PointT) (v : Voxel) :
    (voxelAdd false p v).coord_x = v.coord_x + p.x ∧
      (voxelAdd false p v).coord_y = v.coord_y + p.y ∧
      (voxelAdd false p v).coord_z = v.coord_z + p.z := by
  simp [voxelAdd]

theorem foldl_voxelAdd_geometry (ps : List PointT) (v : Voxel) :
    (ps.foldl (fun v p => voxelAdd false p v) v).coord_x =
        v.coord_x + (ps.map PointT.x).sum ∧
      (ps.foldl (fun v p => voxelAdd false p v) v).coord_y =
        v.coord_y + (ps.map PointT.y).sum ∧
      (ps.foldl (fun v p => voxelAdd false p v) v).coord_z =
        v.coord_z + (ps.map PointT.z).sum := by
  induction ps generalizing v with
  | nil => simp
  | cons p rest ih =>
    obtain ⟨ihx, ihy, ihz⟩ := ih (voxelAdd false p v)
    refine ⟨?_, ?_, ?_⟩
    · rw [List.foldl_cons, ihx, (voxelAdd_coord p v).1, List.map_cons, List.sum_cons]
      ring
    · rw [List.foldl_cons, ihy, (voxelAdd_coord p v).2.1, List.map_cons, List.sum_cons]
      ring
    · rw [List.foldl_cons, ihz, (voxelAdd_coord p v).2.2, List.map_cons, List.sum_cons]
      ring

theorem zipWith_add_getD (a b : List ℚ) (h : a.length = b.length) (i : ℕ) :
    (List.zipWith (· + ·) a b).getD i 0 = a.getD i 0 + b.getD i 0 := by
  induction a generalizing b i with
  | nil =>
    cases b
    · simp
    · simp at h
  | cons x xs ih =>
    cases b with
    | nil => simp at h
    | cons y ys =>
      cases i with
      | zero => simp
      | succ j =>
        simp only [List.zipWith_cons_cons, List.getD_cons_succ]
        exact ih ys (by simpa using h) j

theorem map_div_getD (l : List ℚ) (c : ℚ) (i : ℕ) :
    (l.map (· / c)).getD i 0 = l.getD i 0 / c := by
  induction l generalizing i with
  | nil => simp
  | cons x xs ih =>
    cases i with
    | zero => simp
    | succ j => simpa using ih j

/-- Running-sum invariant of the full-field accumulator over points with a
common field count, starting from a voxel that has already been seeded. -/
theorem foldl_voxelAdd_allfields (k : ℕ) (ps : List PointT) (v : Voxel)
    (hps : ∀ p ∈ ps, p.fields.length = k) (hn : v.centroid_n ≠ 0)
    (hv : v.centroid_fields.length = k) :
    (ps.foldl (fun v p => voxelAdd true p v) v).centroid_n =
        v.centroid_n + ps.length ∧
      (ps.foldl (fun v p => voxelAdd true p v) v).centroid_x =
        v.centroid_x + (ps.map PointT.x).sum ∧
      (ps.foldl (fun v p => voxelAdd true p v) v).centroid_y =
        v.centroid_y + (ps.map PointT.y).sum ∧
      (ps.foldl (fun v p => voxelAdd true p v) v).centroid_z =
        v.centroid_z + (ps.map PointT.z).sum ∧
      (ps.foldl (fun v p => voxelAdd true p v) v).centroid_fields.length = k ∧
      ∀ i : ℕ,
        (ps.foldl (fun v p => voxelAdd true p v) v).centroid_fields.getD i 0 =
          v.centroid_fields.getD i 0 + (ps.map fun p => p.fields.getD i 0).sum := by
  induction ps generalizing v with
  | nil => exact ⟨by simp, by simp, by simp, by simp, hv, fun i => by simp⟩
  | cons p rest ih =>
    have hp : p.fields.length = k := hps p (by simp)
    have hstep : voxelAdd true p v =
        { v with
          centroid_n := v.centroid_n + 1
          centroid_x := v.centroid_x + p.x
          centroid_y := v.centroid_y + p.y
          centroid_z := v.centroid_z + p.z
          centroid_fields := List.zipWith (· + ·) v.centroid_fields p.fields
          num_pt := v.num_pt + 1 } := by
      simp [voxelAdd, centroidAdd, hn]
    obtain ⟨ihn, ihx, ihy, ihz, ihlen, ihf⟩ :=
      ih (voxelAdd true p v) (fun q hq => hps q (by simp [hq]))
        (by rw [hstep]; simp)
        (by rw [hstep]; simp [List.length_zipWith, hv, hp])
    refine ⟨?_, ?_, ?_, ?_, ?_, ?_⟩
    · rw [List.foldl_cons, ihn, hstep, List.length_cons]
      simp only
      omega
    · rw [List.foldl_cons, ihx, hstep, List.map_cons, List.sum_cons]
      simp only
      ring
    · rw [List.foldl_cons, ihy, hstep, List.map_cons, List.sum_cons]
      simp only
      ring
    · rw [List.foldl_cons, ihz, hstep, List.map_cons, List.sum_cons]
      simp only
      ring
    · rw [← List.foldl_cons] at ihlen
      exact ihlen
    · intro i
      rw [List.foldl_cons, ihf i, hstep, List.map_cons, List.sum_cons]
      simp only
      rw [zipWith_add_getD v.centroid_fields p.fields (by omega) i]
      ring

/-- C4: for a cell whose occupancy N reaches min_points_per_voxel_, the
emitted representative point carries, in geometry-only mode, the
componentwise arithmetic mean of the x, y, z of the points added to the
cell (the xyz running sum divided by N) and, in full-field mode, the
per-field arithmetic mean of every scalar field.  The common field count k
reflects that all points of a cloud share one point type. -/
theorem filterGrid_emits_mean (cfg : FilterCfg) (key : ℕ) (k : ℕ)
    (ps : List PointT) (hne : ps ≠ [])
    (hmin : cfg.min_points_per_voxel ≤ ps.length)
    (hk : ∀ p ∈ ps, p.fields.length = k) :
    ∃ pt : PointT,
      (filterGridPass cfg [(key, buildVoxel cfg.downsample_all_data ps)] [] 0).1 = [pt] ∧
      pt.x = (ps.map PointT.x).sum / ps.length ∧
      pt.y = (ps.map PointT.y).sum / ps.length ∧
      pt.z = (ps.map PointT.z).sum / ps.length ∧
      (cfg.downsample_all_data = true →
        ∀ i : ℕ, pt.fields.getD i 0 =
          (ps.map fun p => p.fields.getD i 0).sum / ps.length) := by
  have hnum : (buildVoxel cfg.downsample_all_data ps).num_pt = ps.length := by
    simpa [buildVoxel, Voxel.init] using
      foldl_voxelAdd_num_pt cfg.downsample_all_data ps Voxel.init
  refine ⟨emitCentroid cfg (buildVoxel cfg.downsample_all_data ps), ?_, ?_⟩
  · simp [filterGridPass, hnum, hmin]
  · cases hmode : cfg.downsample_all_data with
    | false =>
      obtain ⟨hx, hy, hz⟩ := foldl_voxelAdd_geometry ps Voxel.init
      have hxv : (buildVoxel false ps).coord_x = (ps.map PointT.x).sum := by
        simpa [Voxel.init] using hx
      have hyv : (buildVoxel false ps).coord_y = (ps.map PointT.y).sum := by
        simpa [Voxel.init] using hy
      have hzv : (buildVoxel false ps).coord_z = (ps.map PointT.z).sum := by
        simpa [Voxel.init] using hz
      rw [hmode] at hnum
      refine ⟨?_, ?_, ?_, by simp⟩ <;>
        simp [emitCentroid, hmode, hxv, hyv, hzv, hnum]
    | true =>
      obtain ⟨p0, rest, rfl⟩ := List.exists_cons_of_ne_nil hne
      have hp0 : p0.fields.length = k := hk p0 (by simp)
      have hsn : (voxelAdd true p0 Voxel.init).centroid_n = 1 := by
        simp [voxelAdd, centroidAdd, Voxel.init]
      have hsx : (voxelAdd true p0 Voxel.init).centroid_x = p0.x := by
        simp [voxelAdd, centroidAdd, Voxel.init]
      have hsy : (voxelAdd true p0 Voxel.init).centroid_y = p0.y := by
        simp [voxelAdd, centroidAdd, Voxel.init]
      have hsz : (voxelAdd true p0 Voxel.init).centroid_z = p0.z := by
        simp [voxelAdd, centroidAdd, Voxel.init]
      have hsf : (voxelAdd true p0 Voxel.init).centroid_fields = p0.fields := by
        simp [voxelAdd, centroidAdd, Voxel.init]
      obtain ⟨hn, hx, hy, hz, hlen, hf⟩ :=
        foldl_voxelAdd_allfields k rest (voxelAdd true p0 Voxel.init)
          (fun q hq => hk q (by simp [hq])) (by rw [hsn]; omega) (by rw [hsf]; exact hp0)
      have hbuild : buildVoxel true (p0 :: rest) =
          (rest.foldl (fun v p => voxelAdd true p v) (voxelAdd true p0 Voxel.init)) := by
        simp [buildVoxel]
      have hcn : (buildVoxel true (p0 :: rest)).centroid_n = rest.length + 1 := by
        rw [hbuild, hn, hsn]
        omega
      have hcx : (buildVoxel true (p0 :: rest)).centroid_x =
          p0.x + (rest.map PointT.x).sum := by
        rw [hbuild, hx, hsx]
      have hcy : (buildVoxel true (p0 :: rest)).centroid_y =
          p0.y + (rest.map PointT.y).sum := by
        rw [hbuild, hy, hsy]
      have hcz : (buildVoxel true (p0 :: rest)).centroid_z =
          p0.z + (rest.map PointT.z).sum := by
        rw [hbuild, hz, hsz]
      refine ⟨?_, ?_, ?_, ?_⟩
      · simp [emitCentroid, hmode, centroidGet, hcx, hcn]
      · simp [emitCentroid, hmode, centroidGet, hcy, hcn]
      · simp [emitCentroid, hmode, centroidGet, hcz, hcn]
      · intro _ i
        simp only [emitCentroid, hmode, if_true, centroidGet]
        rw [map_div_getD, hbuild, hf i, hsf, hn, hsn]
        simp [Nat.add_comm]

/-- Witness for C4: two points with one extra scalar field each, in one
cell with threshold 0 and full-field mode: the emitted point is the mean
(1/2, 1/2, 1/2) with field mean 15. -/
theorem filterGrid_emits_mean_witness :
    ∃ pt : PointT,
      (filterGridPass ⟨⟨1, 1, 1⟩, 0, true, false, none, 0, 0, false⟩
          [(0, buildVoxel true [⟨0, 0, 0, [10]⟩, ⟨1, 1, 1, [20]⟩])] [] 0).1 = [pt] ∧
        pt.x = 1 / 2 ∧ pt.y = 1 / 2 ∧ pt.z = 1 / 2 ∧ pt.fields.getD 0 0 = 15 := by
  obtain ⟨pt, h1, h2, h3, h4, h5⟩ :=
    filterGrid_emits_mean ⟨⟨1, 1, 1⟩, 0, true, false, none, 0, 0, false⟩ 0 1
      [⟨0, 0, 0, [10]⟩, ⟨1, 1, 1, [20]⟩] (by simp) (by simp)
      (by intro p hp; fin_cases hp <;> rfl)
  refine ⟨pt, h1, ?_, ?_, ?_, ?_⟩
  · rw [h2]; norm_num
  · rw [h3]; norm_num
  · rw [h4]; norm_num
  · rw [h5 rfl 0]; norm_num [fieldValue]

theorem filter_set_perm (l : List ℤ) (k : ℕ) (v : ℤ) (hk : k < l.length)
    (hl : l.getD k 0 = -1) (hv : v ≠ -1) :
    List.Perm ((l.set k v).filter (fun e => e ≠ -1))
      (v :: l.filter (fun e => e ≠ -1)) := by
  induction l generalizing k with
  | nil => simp at hk
  | cons x xs ih =>
    cases k with
    | zero =>
      have hx : x = -1 := by simpa using hl
      simp only [List.set_cons_zero, List.filter_cons, hx]
      simp [hv]
    | succ j =>
      have hj : j < xs.length := by simpa using hk
      have hl' : xs.getD j 0 = -1 := by simpa using hl
      have hperm := ih j hj hl'
      by_cases hx : x = (-1 : ℤ)
      · simp only [List.set_cons_succ, List.filter_cons, hx]
        simpa using hperm
      · have hfx : (x :: xs.set j v).filter (fun e => e ≠ -1) =
            x :: (xs.set j v).filter (fun e => e ≠ -1) := by
          simp [List.filter_cons, hx]
        have hfx2 : (x :: xs).filter (fun e => e ≠ -1) =
            x :: xs.filter (fun e => e ≠ -1) := by
          simp [List.filter_cons, hx]
        rw [List.set_cons_succ, hfx, hfx2]
        exact List.Perm.trans (List.Perm.cons x hperm)
          (List.Perm.swap v x (xs.filter (fun e => e ≠ -1)))

theorem getD_set_ne (l : List ℤ) (i j : ℕ) (v : ℤ) (h : i ≠ j) :
    (l.set i v).getD j 0 = l.getD j 0 := by
  induction l generalizing i j with
  | nil => simp
  | cons x xs ih =>
    cases i with
    | zero =>
      cases j with
      | zero => omega
      | succ j2 => simp
    | succ i2 =>
      cases j with
      | zero => simp
      | succ j2 =>
        simp only [List.set_cons_succ, List.getD_cons_succ]
        exact ih i2 j2 (by omega)

theorem getD_replicate_of_lt (N i : ℕ) (h : i < N) :
    (List.replicate N (-1 : ℤ)).getD i 0 = -1 := by
  induction N generalizing i with
  | zero => omega
  | succ m ih =>
    cases i with
    | zero => simp [List.replicate_succ]
    | succ j =>
      rw [List.replicate_succ, List.getD_cons_succ]
      exact ih j (by omega)

theorem range_map_offset (n m : ℕ) :
    (List.range (m + 1)).map (fun j => ((n + j : ℕ) : ℤ)) =
      ((n : ℤ)) :: (List.range m).map (fun j => ((n + 1 + j : ℕ) : ℤ)) := by
  rw [List.range_succ_eq_map, List.map_cons, List.map_map]
  have h1 : ((n + 0 : ℕ) : ℤ) = (n : ℤ) := by norm_num
  have h2 : ((fun j => ((n + j : ℕ) : ℤ)) ∘ Nat.succ) =
      fun j => ((n + 1 + j : ℕ) : ℤ) := by
    funext j
    simp only [Function.comp]
    omega
  rw [h1, h2]

/-- Invariant of the emission pass under save-leaf-layout: with pairwise
distinct keys all pointing at sentinel slots of the layout, the pass adds
to the non-sentinel entries exactly the consecutive indices n, n+1, ...
(one per emitted point) and advances num_voxels_ by the emitted count. -/
theorem filterGridPass_layout_aux (cfg : FilterCfg)
    (hsave : cfg.save_leaf_layout = true) (g : Grid) :
    ∀ (layout : List ℤ) (n : ℕ),
      (g.map Prod.fst).Nodup →
      (∀ c ∈ g, c.1 < layout.length ∧ layout.getD c.1 0 = -1) →
      List.Perm ((filterGridPass cfg g layout n).2.1.filter (fun e => e ≠ -1))
        (layout.filter (fun e => e ≠ -1) ++
          (List.range (filterGridPass cfg g layout n).1.length).map
            (fun j => ((n + j : ℕ) : ℤ))) ∧
      (filterGridPass cfg g layout n).2.2 = n + (filterGridPass cfg g layout n).1.length := by
  induction g with
  | nil =>
    intro layout n _ _
    simp [filterGridPass]
  | cons c rest ih =>
    intro layout n hnodup hkeys
    obtain ⟨k, v⟩ := c
    obtain ⟨hklen, hkval⟩ := hkeys (k, v) (by simp)
    have hknotin : k ∉ rest.map Prod.fst := by
      have := hnodup
      simp only [List.map_cons, List.nodup_cons] at this
      exact this.1
    have hnodup' : (rest.map Prod.fst).Nodup := by
      simp only [List.map_cons, List.nodup_cons] at hnodup
      exact hnodup.2
    by_cases hgate : cfg.min_points_per_voxel ≤ v.num_pt
    · have hres : filterGridPass cfg ((k, v) :: rest) layout n =
          (emitCentroid cfg v ::
              (filterGridPass cfg rest (layout.set k (n : ℤ)) (n + 1)).1,
            (filterGridPass cfg rest (layout.set k (n : ℤ)) (n + 1)).2) := by
        simp [filterGridPass, hgate, hsave]
      have hkeys' : ∀ c ∈ rest, c.1 < (layout.set k (n : ℤ)).length ∧
          (layout.set k (n : ℤ)).getD c.1 0 = -1 := by
        intro c hc
        obtain ⟨h1, h2⟩ := hkeys c (by simp [hc])
        have hne : k ≠ c.1 := by
          intro he
          exact hknotin (he ▸ List.mem_map_of_mem Prod.fst hc)
        exact ⟨by simpa using h1, by rw [getD_set_ne _ _ _ _ hne]; exact h2⟩
      obtain ⟨ihp, ihc⟩ := ih (layout.set k (n : ℤ)) (n + 1) hnodup' hkeys'
      rw [hres]
      constructor
      · simp only [List.length_cons]
        have hsetp := filter_set_perm layout k (n : ℤ) hklen hkval (by omega)
        have step1 := List.Perm.append_right
          ((List.range (filterGridPass cfg rest (layout.set k (n : ℤ)) (n + 1)).1.length).map
            (fun j => ((n + 1 + j : ℕ) : ℤ))) hsetp
        have step2 := List.Perm.trans ihp step1
        rw [range_map_offset]
        refine List.Perm.trans step2 ?_
        exact (List.perm_middle).symm
      · simp only [List.length_cons]
        omega
    · have hres : filterGridPass cfg ((k, v) :: rest) layout n =
          filterGridPass cfg rest layout n := by
        simp [filterGridPass, hgate]
      rw [hres]
      exact ih layout n hnodup' (fun c hc => hkeys c (by simp [hc]))

/-- C10: after an emission pass with save-leaf-layout enabled, over a grid
whose keys are pairwise distinct indices into the freshly reset layout, the
non-sentinel layout entries are assigned consecutively in emission order
starting from 0 via num_voxels_++: as a multiset they are exactly
{0, ..., k-1} for k the number of emitted output points, hence pairwise
distinct and each a valid index into the output cloud; num_voxels_ ends at
k. -/
theorem filterGridPass_layout_indices (cfg : FilterCfg) (g : Grid) (N : ℕ)
    (hsave : cfg.save_leaf_layout = true)
    (hnodup : (g.map Prod.fst).Nodup)
    (hkeys : ∀ c ∈ g, c.1 < N) :
    List.Perm
      ((filterGridPass cfg g (List.replicate N (-1)) 0).2.1.filter (fun e => e ≠ -1))
      ((List.range (filterGridPass cfg g (List.replicate N (-1)) 0).1.length).map
        (fun j : ℕ => (j : ℤ))) ∧
    (filterGridPass cfg g (List.replicate N (-1)) 0).2.2 =
      (filterGridPass cfg g (List.replicate N (-1)) 0).1.length := by
  have hkeys2 : ∀ c ∈ g, c.1 < (List.replicate N (-1 : ℤ)).length ∧
      (List.replicate N (-1 : ℤ)).getD c.1 0 = -1 := by
    intro c hc
    have h := hkeys c hc
    exact ⟨by simpa using h, getD_replicate_of_lt N c.1 h⟩
  obtain ⟨hperm, hcount⟩ :=
    filterGridPass_layout_aux cfg hsave g (List.replicate N (-1)) 0 hnodup hkeys2
  have hrep : (List.replicate N (-1 : ℤ)).filter (fun e => e ≠ -1) = [] := by
    apply List.filter_eq_nil_iff.mpr
    intro a ha
    have := List.eq_of_mem_replicate ha
    simp [this]
  have hmap : (fun j : ℕ => ((0 + j : ℕ) : ℤ)) = fun j : ℕ => (j : ℤ) := by
    funext j
    omega
  constructor
  · rw [hrep] at hperm
    rw [List.nil_append] at hperm
    rw [hmap] at hperm
    exact hperm
  · omega

/-- Witness for C10: two occupied cells with keys 2 and 0 in a layout of
three sentinel slots; the pass writes the output indices 0 and 1 into the
slots, matching the range of the two emitted points. -/
theorem filterGridPass_layout_indices_witness :
    List.Perm
      ((filterGridPass ⟨⟨1, 1, 1⟩, 0, true, true, none, 0, 0, false⟩
          [(2, Voxel.init), (0, Voxel.init)] (List.replicate 3 (-1)) 0).2.1.filter
        (fun e => e ≠ -1))
      ((List.range (filterGridPass ⟨⟨1, 1, 1⟩, 0, true, true, none, 0, 0, false⟩
          [(2, Voxel.init), (0, Voxel.init)] (List.replicate 3 (-1)) 0).1.length).map
        (fun j : ℕ => (j : ℤ))) ∧
    (filterGridPass ⟨⟨1, 1, 1⟩, 0, true, true, none, 0, 0, false⟩
        [(2, Voxel.init), (0, Voxel.init)] (List.replicate 3 (-1)) 0).2.2 =
      (filterGridPass ⟨⟨1, 1, 1⟩, 0, true, true, none, 0, 0, false⟩
        [(2, Voxel.init), (0, Voxel.init)] (List.replicate 3 (-1)) 0).1.length :=
  filterGridPass_layout_indices ⟨⟨1, 1, 1⟩, 0, true, true, none, 0, 0, false⟩
    [(2, Voxel.init), (0, Voxel.init)] 3 rfl (by simp)
    (by
      intro c hc
      simp only [List.mem_cons, List.not_mem_nil, or_false] at hc
      rcases hc with rfl | rfl <;> norm_num)

/-- A read of leaf_layout_ at a computed linear index: a defined value only
when the index lies inside the array; none stands for the out-of-bounds
vector access the source would otherwise perform. -/
def leafRead (layout : List ℤ) (idx : ℤ) : Option ℤ :=
  if 0 ≤ idx ∧ idx < (layout.length : ℤ) then some (layout.getD idx.toNat (-1))
  else none

/-- The bounds check of the Eigen-matrix overloads: the displacement lies
between diff2min = min_b_ - ijk and diff2max = max_b_ - ijk on the three
coordinate axes.  (The source compares Eigen 4-vectors whose fourth
components are the homogeneous ones; only the coordinate axes are
represented here.) -/
def inExtent (gp : GridParams) (ijk d : Vec3i) : Prop :=
  (gp.min_b.x - ijk.x ≤ d.x ∧ gp.min_b.y - ijk.y ≤ d.y ∧ gp.min_b.z - ijk.z ≤ d.z) ∧
    (d.x ≤ gp.max_b.x - ijk.x ∧ d.y ≤ gp.max_b.y - ijk.y ∧ d.z ≤ gp.max_b.z - ijk.z)

instance (gp : GridParams) (ijk d : Vec3i) : Decidable (inExtent gp ijk d) := by
  unfold inExtent
  infer_instance

/-- The linear layout index of a displaced cell: the dot product
(ijk + displacement - min_b_) . divb_mul_ (the fourth stride is 0). -/
def neighborIndex (gp : GridParams) (ijk d : Vec3i) : ℤ :=
  (ijk.x + d.x - gp.min_b.x) * gp.divb_mul.x +
    (ijk.y + d.y - gp.min_b.y) * gp.divb_mul.y +
    (ijk.z + d.z - gp.min_b.z) * gp.divb_mul.z

/-- The per-offset lookup of the Eigen-matrix overloads of
getNeighborCentroidIndices (voxel_grid.h lines 161-186 and 234-258): the
displaced cell is bounds-checked against min_b_ / max_b_ and only then is
the layout read; an out-of-extent displacement yields the sentinel -1 with
no array access. -/
def neighborLookupChecked (gp : GridParams) (layout : List ℤ) (ijk d : Vec3i) :
    Option ℤ :=
  if inExtent gp ijk d then leafRead layout (neighborIndex gp ijk d)
  else some (-1)

/-- The per-offset lookup of the std::vector overload of
getNeighborCentroidIndices (voxel_grid.h lines 202-222, and lines 181-199
of the second revision): the displaced cell is mapped straight into a
layout read, with no bounds check. -/
def neighborLookupVec (gp : GridParams) (layout : List ℤ) (ijk d : Vec3i) :
    Option ℤ :=
  leafRead layout (neighborIndex gp ijk d)

/-- getNeighborCentroidIndices, Eigen-matrix overloads: the reference
point's grid coordinates, then the checked per-offset lookup (the PointT
overload forwards the point's x, y, z to the raw-coordinate one). -/
def getNeighborCentroidIndices (gp : GridParams) (layout : List ℤ)
    (x y z : ℚ) (offsets : List Vec3i) : List (Option ℤ) :=
  offsets.map (neighborLookupChecked gp layout (gridCoordinates gp.inv ⟨x, y, z⟩))

/-- getNeighborCentroidIndices, std::vector overload: the same except that
every offset is looked up without any bounds check. -/
def getNeighborCentroidIndicesVec (gp : GridParams) (layout : List ℤ)
    (x y z : ℚ) (offsets : List Vec3i) : List (Option ℤ) :=
  offsets.map (neighborLookupVec gp layout (gridCoordinates gp.inv ⟨x, y, z⟩))

/-- C7 counterexample: a one-cell grid (extrema both (0,0,0), unit leaf
size) with a one-entry layout.  For the offset (1,0,0), outside the grid
extent, the std::vector overload computes linear index 1 and reads the
layout there - an out-of-bounds access, not the sentinel -1 the claim
promises for every neighbor query; the Eigen-matrix overload of the same
query does return the sentinel. -/
theorem getNeighborCentroidIndices_counterexample :
    getNeighborCentroidIndicesVec (setUpParams ⟨1, 1, 1⟩ ⟨0, 0, 0⟩ ⟨0, 0, 0⟩)
        [5] 0 0 0 [⟨1, 0, 0⟩] = [none] ∧
      getNeighborCentroidIndices (setUpParams ⟨1, 1, 1⟩ ⟨0, 0, 0⟩ ⟨0, 0, 0⟩)
        [5] 0 0 0 [⟨1, 0, 0⟩] = [some (-1)] := by
  constructor
  · norm_num [getNeighborCentroidIndicesVec, neighborLookupVec, leafRead,
      neighborIndex, setUpParams, gridCoordinates]
  · norm_num [getNeighborCentroidIndices, neighborLookupChecked, inExtent,
      setUpParams, gridCoordinates]

theorem linIndex_bounds (i j k dbx dby dbz : ℤ)
    (hi1 : 0 ≤ i) (hi2 : i < dbx) (hj1 : 0 ≤ j) (hj2 : j < dby)
    (hk1 : 0 ≤ k) (hk2 : k < dbz) :
    0 ≤ i * 1 + j * dbx + k * (dbx * dby) ∧
      i * 1 + j * dbx + k * (dbx * dby) < dbx * dby * dbz := by
  have hdbx0 : (0 : ℤ) ≤ dbx := by omega
  have hdby0 : (0 : ℤ) ≤ dby := by omega
  have hdbxy0 : (0 : ℤ) ≤ dbx * dby := mul_nonneg hdbx0 hdby0
  have h1 : j * dbx ≤ (dby - 1) * dbx := mul_le_mul_of_nonneg_right (by omega) hdbx0
  have h2 : k * (dbx * dby) ≤ (dbz - 1) * (dbx * dby) :=
    mul_le_mul_of_nonneg_right (by omega) hdbxy0
  constructor
  · have hj3 := mul_nonneg hj1 hdbx0
    have hk3 := mul_nonneg hk1 hdbxy0
    omega
  · nlinarith [h1, h2]

/-- C7 (amended): for the Eigen-matrix neighbor queries (by reference point
or raw coordinates), every offset is bounds-checked against the grid's
min/max bounding-box coordinates before the leaf-layout array is read: an
offset whose absolute cell lies outside the grid extent yields the sentinel
-1 with no array access, and an offset inside the extent is a well-defined
read (the computed index lies inside a layout sized to the division-count
product).  The std::vector overload performs no such check (see
getNeighborCentroidIndices_counterexample). -/
theorem getNeighborCentroidIndices_checked (inv min_p max_p : Vec3)
    (layout : List ℤ) (x y z : ℚ) (offsets : List Vec3i)
    (ix : 0 < inv.x) (iy : 0 < inv.y) (iz : 0 < inv.z)
    (hx : min_p.x ≤ max_p.x) (hy : min_p.y ≤ max_p.y) (hz : min_p.z ≤ max_p.z)
    (hlen : layout.length = totalCells (setUpParams inv min_p max_p)) :
    ∀ d ∈ offsets,
      (¬ inExtent (setUpParams inv min_p max_p)
          (gridCoordinates inv ⟨x, y, z⟩) d →
        neighborLookupChecked (setUpParams inv min_p max_p) layout
          (gridCoordinates inv ⟨x, y, z⟩) d = some (-1)) ∧
      neighborLookupChecked (setUpParams inv min_p max_p) layout
        (gridCoordinates inv ⟨x, y, z⟩) d ≠ none := by
  intro d _
  set gp := setUpParams inv min_p max_p with hgp
  set ijk := gridCoordinates inv ⟨x, y, z⟩ with hijk
  constructor
  · intro hout
    unfold neighborLookupChecked
    rw [if_neg hout]
  · by_cases hin : inExtent gp ijk d
    · have hminb : gp.min_b = gridCoordinates inv min_p := by rw [hgp]; rfl
      have hmaxb : gp.max_b = gridCoordinates inv max_p := by rw [hgp]; rfl
      have hdiv : gp.div_b = ⟨gp.max_b.x - gp.min_b.x + 1, gp.max_b.y - gp.min_b.y + 1,
          gp.max_b.z - gp.min_b.z + 1⟩ := by rw [hgp]; rfl
      have hmul : gp.divb_mul = ⟨1, gp.div_b.x, gp.div_b.x * gp.div_b.y⟩ := by
        rw [hgp]; rfl
      have hbx : gp.min_b.x ≤ gp.max_b.x := by
        rw [hminb, hmaxb]
        exact Int.floor_le_floor (mul_le_mul_of_nonneg_right hx ix.le)
      have hby : gp.min_b.y ≤ gp.max_b.y := by
        rw [hminb, hmaxb]
        exact Int.floor_le_floor (mul_le_mul_of_nonneg_right hy iy.le)
      have hbz : gp.min_b.z ≤ gp.max_b.z := by
        rw [hminb, hmaxb]
        exact Int.floor_le_floor (mul_le_mul_of_nonneg_right hz iz.le)
      obtain ⟨⟨g1, g2, g3⟩, g4, g5, g6⟩ := id hin
      have hbounds := linIndex_bounds (ijk.x + d.x - gp.min_b.x)
        (ijk.y + d.y - gp.min_b.y) (ijk.z + d.z - gp.min_b.z)
        gp.div_b.x gp.div_b.y gp.div_b.z
        (by omega) (by rw [hdiv]; simp only; omega)
        (by omega) (by rw [hdiv]; simp only; omega)
        (by omega) (by rw [hdiv]; simp only; omega)
      have hidx : neighborIndex gp ijk d =
          (ijk.x + d.x - gp.min_b.x) * 1 +
            (ijk.y + d.y - gp.min_b.y) * gp.div_b.x +
            (ijk.z + d.z - gp.min_b.z) * (gp.div_b.x * gp.div_b.y) := by
        unfold neighborIndex
        rw [hmul]
      have hlen2 : (layout.length : ℤ) = gp.div_b.x * gp.div_b.y * gp.div_b.z := by
        rw [hlen]
        unfold totalCells
        rw [Int.toNat_of_nonneg (by nlinarith [hbounds.1, hbounds.2])]
      unfold neighborLookupChecked
      rw [if_pos hin]
      unfold leafRead
      rw [if_pos (by rw [hidx, hlen2]; exact ⟨hbounds.1, hbounds.2⟩)]
      simp
    · unfold neighborLookupChecked
      rw [if_neg hin]
      simp

/-- Witness for the amended C7: a one-cell grid with layout [7]; the
in-extent zero offset reads index 0 and the offset (1,0,0) is rejected
with the sentinel. -/
theorem getNeighborCentroidIndices_checked_witness :
    (¬ inExtent (setUpParams ⟨1, 1, 1⟩ ⟨0, 0, 0⟩ ⟨0, 0, 0⟩)
        (gridCoordinates ⟨1, 1, 1⟩ ⟨0, 0, 0⟩) ⟨1, 0, 0⟩ →
      neighborLookupChecked (setUpParams ⟨1, 1, 1⟩ ⟨0, 0, 0⟩ ⟨0, 0, 0⟩) [7]
        (gridCoordinates ⟨1, 1, 1⟩ ⟨0, 0, 0⟩) ⟨1, 0, 0⟩ = some (-1)) ∧
    neighborLookupChecked (setUpParams ⟨1, 1, 1⟩ ⟨0, 0, 0⟩ ⟨0, 0, 0⟩) [7]
      (gridCoordinates ⟨1, 1, 1⟩ ⟨0, 0, 0⟩) ⟨1, 0, 0⟩ ≠ none :=
  getNeighborCentroidIndices_checked ⟨1, 1, 1⟩ ⟨0, 0, 0⟩ ⟨0, 0, 0⟩ [7] 0 0 0
    [⟨1, 0, 0⟩] (by norm_num) (by norm_num) (by norm_num) (by norm_num)
    (by norm_num) (by norm_num)
    (by norm_num [totalCells, setUpParams, gridCoordinates]) ⟨1, 0, 0⟩ (by simp)

/-- The emission pass with the in-place mutation of filterGrid made
explicit (voxel_grid.h line 471): in geometry-only mode the statement
voxel.coord_centroid /= voxel.num_pt is stored back into the grid entry.
The leaf layout is not threaded here (the stateful scenarios below run with
save_leaf_layout_ false). -/
def filterGridPassSt (cfg : FilterCfg) : Grid → List PointT × Grid
  | [] => ([], [])
  | (k, v) :: rest =>
    let r := filterGridPassSt cfg rest
    if cfg.min_points_per_voxel ≤ v.num_pt then
      let v1 :=
        if cfg.downsample_all_data then v
        else
          { v with
            coord_x := v.coord_x / (v.num_pt : ℚ)
            coord_y := v.coord_y / (v.num_pt : ℚ)
            coord_z := v.coord_z / (v.num_pt : ℚ) }
      (emitCentroid cfg v :: r.1, (k, v1) :: r.2)
    else (r.1, (k, v) :: r.2)

/-- A whole filter invocation with the grid member carried across calls.
The first revision of VoxelStructT::setUp (voxel_grid.h lines 314-389)
never clears grid_, so the binning phase folds the input into whatever the
previous invocation left in the container (clearGrid = false); the second
revision (lines 277-336 of its file) calls grid_.clear() first (clearGrid =
true).  Orchestration otherwise as in applyFilter. -/
def applyFilterCarry (clearGrid : Bool) (cfg : FilterCfg) (g0 : Grid)
    (input : List PointT) : List PointT × Grid :=
  if input.isEmpty then ([], g0)
  else
    match setUp cfg input [] with
    | none => (input, g0)
    | some (gp, _) =>
      filterGridPassSt cfg
        (input.foldl (addPointToGrid cfg gp) (if clearGrid then [] else g0))

/-- C8: with the first revision's setUp (no grid_.clear()), voxel entries
survive into the next filter call.  One point with min_points_per_voxel =
2: a single call emits nothing, but the second identical call on the same
filter object sees the cell at occupancy 2 and emits a point - two
successive calls do not produce the result of one call.  The second
revision's setUp (grid cleared) behaves as the claim states on the same
input. -/
theorem setUp_missing_clear_code_bug :
    (applyFilterCarry false ⟨⟨1, 1, 1⟩, 2, false, false, none, 0, 0, false⟩
        [] [⟨1 / 2, 1 / 2, 1 / 2, []⟩]).1 = [] ∧
    (applyFilterCarry false ⟨⟨1, 1, 1⟩, 2, false, false, none, 0, 0, false⟩
        (applyFilterCarry false ⟨⟨1, 1, 1⟩, 2, false, false, none, 0, 0, false⟩
          [] [⟨1 / 2, 1 / 2, 1 / 2, []⟩]).2
        [⟨1 / 2, 1 / 2, 1 / 2, []⟩]).1 = [⟨1 / 2, 1 / 2, 1 / 2, []⟩] ∧
    (applyFilterCarry true ⟨⟨1, 1, 1⟩, 2, false, false, none, 0, 0, false⟩
        (applyFilterCarry true ⟨⟨1, 1, 1⟩, 2, false, false, none, 0, 0, false⟩
          [] [⟨1 / 2, 1 / 2, 1 / 2, []⟩]).2
        [⟨1 / 2, 1 / 2, 1 / 2, []⟩]).1 =
      (applyFilterCarry true ⟨⟨1, 1, 1⟩, 2, false, false, none, 0, 0, false⟩
        [] [⟨1 / 2, 1 / 2, 1 / 2, []⟩]).1 := by
  refine ⟨?_, ?_, ?_⟩ <;>
    norm_num [applyFilterCarry, setUp, cloudMinMax, checkIfOverflow, dcount, max_size,
      PointT.vec3, setUpParams, gridCoordinates, addPointToGrid, pointPassesFilter,
      hashPoint, gridUpdate, voxelAdd, Voxel.init, filterGridPassSt, emitCentroid,
      List.foldl]

/-- The leaf-size state of VoxelStructT: leaf_size_ together with the
cached inverse_leaf_size_ = 1 / leaf_size_ per component.  A float division
1/0 produces a non-finite value, embedded as none; the finite reciprocal is
some (1/x). -/
structure LeafState where
  l0 : ℚ
  l1 : ℚ
  l2 : ℚ
  l3 : ℚ
  inv0 : Option ℚ
  inv1 : Option ℚ
  inv2 : Option ℚ
  inv3 : Option ℚ
deriving DecidableEq

/-- The float reciprocal of one component. -/
def invQ (x : ℚ) : Option ℚ :=
  if x = 0 then none else some (1 / x)

/-- The constructor state: leaf_size_ and inverse_leaf_size_ both
zero-initialized (Eigen Zero), the inverse still finite. -/
def leafInit : LeafState :=
  ⟨0, 0, 0, 0, some 0, some 0, some 0, some 0⟩

/-- setLeafSize(Eigen::Vector4f) (voxel_grid.h lines 60-69, identical in
the second revision): store the whole vector, set the stored fourth
component to 1 when it is zero, recompute the inverse componentwise. -/
def setLeafSize4 (v0 v1 v2 v3 : ℚ) : LeafState :=
  let m3 := if v3 = 0 then 1 else v3
  ⟨v0, v1, v2, m3, invQ v0, invQ v1, invQ v2, invQ m3⟩

/-- setLeafSize(lx, ly, lz) (voxel_grid.h lines 76-87): store the three
coordinate components, keep the previous fourth, set the stored fourth
component to 1 when it is zero, recompute the inverse componentwise. -/
def setLeafSize3 (st : LeafState) (lx ly lz : ℚ) : LeafState :=
  let m3 := if st.l3 = 0 then 1 else st.l3
  ⟨lx, ly, lz, m3, invQ lx, invQ ly, invQ lz, invQ m3⟩

/-- C9 counterexample: setLeafSize with zero coordinate components.  Both
overloads keep the zero x component (it is not normalized to 1) and cache
the non-finite reciprocal for it: only the homogeneous fourth component is
checked by the source. -/
theorem setLeafSize_zero_counterexample :
    (setLeafSize3 leafInit 0 0 0).l0 = 0 ∧
      (setLeafSize3 leafInit 0 0 0).inv0 = none ∧
      (setLeafSize4 0 2 3 0).l0 = 0 ∧
      (setLeafSize4 0 2 3 0).inv0 = none := by
  norm_num [setLeafSize3, setLeafSize4, leafInit, invQ]

/-- C9 (amended): after either setLeafSize overload only the homogeneous
fourth component is normalized: it is nonzero (zero becomes 1) and its
stored inverse is finite, while the first three components are stored
exactly as given, with no zero-to-one normalization (a zero coordinate
component keeps a non-finite inverse, see
setLeafSize_zero_counterexample). -/
theorem setLeafSize_normalizes_fourth (st : LeafState) (v0 v1 v2 v3 : ℚ) :
    ((setLeafSize4 v0 v1 v2 v3).l0 = v0 ∧ (setLeafSize4 v0 v1 v2 v3).l1 = v1 ∧
      (setLeafSize4 v0 v1 v2 v3).l2 = v2 ∧ (setLeafSize4 v0 v1 v2 v3).l3 ≠ 0 ∧
      (setLeafSize4 v0 v1 v2 v3).inv3.isSome = true) ∧
    ((setLeafSize3 st v0 v1 v2).l0 = v0 ∧ (setLeafSize3 st v0 v1 v2).l1 = v1 ∧
      (setLeafSize3 st v0 v1 v2).l2 = v2 ∧ (setLeafSize3 st v0 v1 v2).l3 ≠ 0 ∧
      (setLeafSize3 st v0 v1 v2).inv3.isSome = true) := by
  constructor
  · by_cases h : v3 = 0 <;> simp [setLeafSize4, invQ, h]
  · by_cases h : st.l3 = 0 <;> simp [setLeafSize3, invQ, h]

/-- Witness for the amended C9 at a zero fourth component: it is stored as
1, nonzero with a finite inverse. -/
theorem setLeafSize_normalizes_fourth_witness :
    (setLeafSize4 5 6 7 0).l3 ≠ 0 ∧ (setLeafSize4 5 6 7 0).inv3.isSome = true :=
  ⟨(setLeafSize_normalizes_fourth leafInit 5 6 7 0).1.2.2.2.1,
    (setLeafSize_normalizes_fourth leafInit 5 6 7 0).1.2.2.2.2⟩

end VoxelGridSpec
